import Mathlib

/-!
# Verification of the Celestia game server (`src/server.js`)

Shallow embedding of the per-room simulation engine of `server.js`:
procedural map generation, safe-spawn search, the ready/running/ended
match state machine, kill rankings with winner/draw rules, and the
fixed-step simulation tick.

Modelling conventions:
* JavaScript numbers are modelled as exact rationals (`ℚ`).
* `Math.random()` is modelled as an oracle stream `rand : ℕ → ℚ` together
  with an index `rIdx` into the stream that every sampling call advances;
  the contract `0 ≤ rand n < 1` becomes an explicit hypothesis where a
  theorem needs it.
* `Math.cos`, `Math.sin`, `Math.hypot` and `Math.PI` are oracle fields of
  an `Env` record: no claim depends on their values, only on how the code
  routes them.
* JavaScript `Map`s (`players`, `bullets`, the room registry) are modelled
  as association lists in insertion order; `Map.set` replaces in place,
  `Map.delete` removes the entry, preserving the order of the others.
* `broadcast`/`emit` calls are modelled as an emitted `Event` list.
* `Date.now()` is passed in as an integer parameter `now`.
-/

namespace Celestia

/-- `GAME_TICK_RATE` from server.js line 21. -/
def GAME_TICK_RATE : ℚ := 45

/-- `GAME_DT = 1 / GAME_TICK_RATE` (server.js line 22). -/
def GAME_DT : ℚ := 1 / GAME_TICK_RATE

/-- `MAP_WIDTH` (server.js line 23). -/
def MAP_WIDTH : ℚ := 1250

/-- `MAP_HEIGHT` (server.js line 24). -/
def MAP_HEIGHT : ℚ := 650

/-- An axis-aligned rectangular wall `{x, y, w, h}`. -/
structure Wall where
  x : ℚ
  y : ℚ
  w : ℚ
  h : ℚ
deriving DecidableEq

/-- A circular pillar `{x, y, r}`. -/
structure Pillar where
  x : ℚ
  y : ℚ
  r : ℚ
deriving DecidableEq

/-- The arena returned by `generateMap` (server.js line 101). -/
structure GameMap where
  walls : List Wall
  pillars : List Pillar
  width : ℚ
  height : ℚ
deriving DecidableEq

/-- `isOverlapping` (server.js lines 58-65): the strict rectangle overlap
test; touching edges do not count as overlap. -/
def isOverlapping (a b : Wall) : Bool :=
  decide (a.x < b.x + b.w) && decide (a.x + a.w > b.x) &&
  decide (a.y < b.y + b.h) && decide (a.y + a.h > b.y)

/-! ## Association lists with JavaScript `Map` semantics -/

/-- `Map.set`: replace the value at an existing key in place, otherwise
append the new entry at the end (JS `Map` insertion order). -/
def setA {β : Type} (k : String) (v : β) : List (String × β) → List (String × β)
  | [] => [(k, v)]
  | e :: rest => if e.1 = k then (k, v) :: rest else e :: setA k v rest

/-- `Map.get`: the value stored at the first entry with key `k`. -/
def getA {β : Type} (k : String) : List (String × β) → Option β
  | [] => none
  | e :: rest => if e.1 = k then some e.2 else getA k rest

/-- `Map.delete`: remove the first entry with key `k`. -/
def eraseA {β : Type} (k : String) : List (String × β) → List (String × β)
  | [] => []
  | e :: rest => if e.1 = k then rest else e :: eraseA k rest

theorem getA_setA_self {β : Type} (k : String) (v : β) (l : List (String × β)) :
    getA k (setA k v l) = some v := by
  induction l with
  | nil => simp [setA, getA]
  | cons e rest ih =>
    by_cases h : e.1 = k <;> simp [setA, getA, h, ih]

theorem getA_setA_ne {β : Type} {k k' : String} (v : β) (l : List (String × β))
    (h : k' ≠ k) : getA k' (setA k v l) = getA k' l := by
  induction l with
  | nil => simp [setA, getA, Ne.symm h]
  | cons e rest ih =>
    by_cases he : e.1 = k
    · simp [setA, getA, he, Ne.symm h, ih]
    · simp [setA, getA, he, ih]

theorem mem_setA {β : Type} {k : String} {v : β} {l : List (String × β)}
    {e : String × β} (h : e ∈ setA k v l) : e = (k, v) ∨ e ∈ l := by
  induction l with
  | nil => simpa [setA] using h
  | cons e' rest ih =>
    by_cases he : e'.1 = k
    · rw [setA, if_pos he] at h
      rcases List.mem_cons.mp h with h | h
      · exact Or.inl h
      · exact Or.inr (List.mem_cons_of_mem _ h)
    · rw [setA, if_neg he] at h
      rcases List.mem_cons.mp h with h | h
      · exact Or.inr (h ▸ List.mem_cons_self _ _)
      · rcases ih h with h | h
        · exact Or.inl h
        · exact Or.inr (List.mem_cons_of_mem _ h)

theorem getA_mem {β : Type} {k : String} {v : β} {l : List (String × β)}
    (h : getA k l = some v) : (k, v) ∈ l := by
  induction l with
  | nil => simp [getA] at h
  | cons e rest ih =>
    by_cases he : e.1 = k
    · rw [getA, if_pos he] at h
      cases h
      exact he ▸ List.mem_cons_self _ _
    · rw [getA, if_neg he] at h
      exact List.mem_cons_of_mem _ (ih h)

/-- Keys of an association list. -/
def keysA {β : Type} (l : List (String × β)) : List String := l.map (·.1)

theorem keysA_cons {β : Type} (e : String × β) (l : List (String × β)) :
    keysA (e :: l) = e.1 :: keysA l := rfl

theorem keysA_setA {β : Type} (k : String) (v : β) (l : List (String × β)) :
    keysA (setA k v l) = if k ∈ keysA l then keysA l else keysA l ++ [k] := by
  induction l with
  | nil => simp [setA, keysA]
  | cons e rest ih =>
    by_cases he : e.1 = k
    · simp [setA, keysA, he]
    · rw [setA, if_neg he]
      by_cases hk : k ∈ keysA rest
      · have hk2 : k ∈ keysA (e :: rest) := by simp [keysA_cons, hk]
        rw [if_pos hk2, keysA_cons, keysA_cons, ih, if_pos hk]
      · have hk2 : ¬k ∈ keysA (e :: rest) := by
          simp [keysA_cons, Ne.symm he, hk]
        rw [if_neg hk2, keysA_cons, keysA_cons, ih, if_neg hk,
          List.cons_append]

theorem nodup_keysA_setA {β : Type} (k : String) (v : β) {l : List (String × β)}
    (h : (keysA l).Nodup) : (keysA (setA k v l)).Nodup := by
  rw [keysA_setA]
  by_cases hk : k ∈ keysA l
  · simpa [hk] using h
  · simp only [hk, if_false]
    rw [List.nodup_append]
    exact ⟨h, List.nodup_singleton k, by simpa using hk⟩

/-! ## Collision helper and safe spawn -/

/-- `collidesWithObstacles(x, y, radius)` (server.js lines 105-115).
The source declares a default radius of 15 that no call site uses;
we always pass the radius explicitly. -/
def collidesWithObstacles (m : GameMap) (x y radius : ℚ) : Bool :=
  m.walls.any (fun w =>
    decide (x + radius > w.x) && decide (x - radius < w.x + w.w) &&
    decide (y + radius > w.y) && decide (y - radius < w.y + w.h)) ||
  m.pillars.any (fun p =>
    let dx := x - p.x
    let dy := y - p.y
    decide (dx * dx + dy * dy < (radius + p.r) ^ 2))

/-- Result of `getSafeSpawn`: point, number of samples taken (`tries`),
and the next unconsumed random index. -/
structure SpawnResult where
  x : ℚ
  y : ℚ
  tries : ℕ
  idx : ℕ
deriving DecidableEq

/-- The body of `getSafeSpawn`'s do/while loop (server.js lines 118-127).
Each iteration samples `x`, `y`, increments `tries`, breaks when
`tries > 1000`, and otherwise repeats while the point collides (radius 20).
`fuel` bounds the recursion; with the entry fuel of 1000 the fuel-exhausted
branch coincides with the `tries > 1000` break. -/
def getSafeSpawnGo (m : GameMap) (rand : ℕ → ℚ) :
    (fuel : ℕ) → (idx : ℕ) → (tries : ℕ) → SpawnResult
  | 0, idx, tries =>
    ⟨rand idx * MAP_WIDTH, rand (idx + 1) * MAP_HEIGHT, tries + 1, idx + 2⟩
  | fuel + 1, idx, tries =>
    let x := rand idx * MAP_WIDTH
    let y := rand (idx + 1) * MAP_HEIGHT
    let tries' := tries + 1
    if 1000 < tries' then ⟨x, y, tries', idx + 2⟩
    else if collidesWithObstacles m x y 20 then
      getSafeSpawnGo m rand fuel (idx + 2) tries'
    else ⟨x, y, tries', idx + 2⟩

/-- `getSafeSpawn()` (server.js lines 118-127). -/
def getSafeSpawn (m : GameMap) (rand : ℕ → ℚ) (idx : ℕ) : SpawnResult :=
  getSafeSpawnGo m rand 1000 idx 0

/-! ## Map generation -/

/-- One candidate wall of `generateMap` (server.js lines 72-84), consuming
five random samples: orientation, the two extents, and the position. -/
def candidateWall (rand : ℕ → ℚ) (idx : ℕ) : Wall :=
  let isHorizontal := decide ((1 : ℚ) / 2 < rand idx)
  let w := if isHorizontal then 150 + rand (idx + 1) * 150 else 50 + rand (idx + 1) * 40
  let h := if isHorizontal then 50 + rand (idx + 2) * 40 else 100 + rand (idx + 2) * 100
  let x := rand (idx + 3) * (MAP_WIDTH - w - 20)
  let y := rand (idx + 4) * (MAP_HEIGHT - h - 20)
  ⟨x, y, w, h⟩

/-- The wall-placement loop of `generateMap` (server.js lines 68-91):
`while (walls.length < 8 && tries < 100)`. `fuel` is `100 - tries`, so
fuel exhaustion is exactly the `tries < 100` exit. Returns the walls, the
number of attempts used, and the next random index. -/
def genWallsGo (rand : ℕ → ℚ) :
    (fuel : ℕ) → (idx : ℕ) → (walls : List Wall) → (tries : ℕ) →
    List Wall × ℕ × ℕ
  | 0, idx, walls, tries => (walls, tries, idx)
  | fuel + 1, idx, walls, tries =>
    if 8 ≤ walls.length then (walls, tries, idx)
    else
      let newWall := candidateWall rand idx
      let overlaps := walls.any (fun wall => isOverlapping wall newWall)
      let walls' := if overlaps then walls else walls ++ [newWall]
      genWallsGo rand fuel (idx + 5) walls' (tries + 1)

/-- The pillar loop of `generateMap` (server.js lines 93-100): exactly six
pillars, no overlap rejection, three random samples each. -/
def genPillars (rand : ℕ → ℚ) : (count : ℕ) → (idx : ℕ) → List Pillar × ℕ
  | 0, idx => ([], idx)
  | count + 1, idx =>
    let p : Pillar := ⟨rand idx * MAP_WIDTH, rand (idx + 1) * MAP_HEIGHT,
      40 + rand (idx + 2) * 30⟩
    let rest := genPillars rand count (idx + 3)
    (p :: rest.1, rest.2)

/-- `generateMap()` (server.js lines 52-102). Returns the arena and the
next random index. -/
def generateMap (rand : ℕ → ℚ) (idx : ℕ) : GameMap × ℕ :=
  let gw := genWallsGo rand 100 idx [] 0
  let gp := genPillars rand 6 gw.2.2
  (⟨gw.1, gp.1, MAP_WIDTH, MAP_HEIGHT⟩, gp.2)

/-! ## Players, bullets, rooms -/

/-- A queued client input `{seq, turn, thrust, fire}` (`input.turn || 0`
and `input.thrust || 0` default missing fields; the model types them). -/
structure Input where
  seq : ℤ
  turn : ℚ
  thrust : ℚ
  fire : Bool
deriving DecidableEq

/-- A player record as stored by `addPlayer` (server.js lines 137-150). -/
structure Player where
  id : String
  name : String
  x : ℚ
  y : ℚ
  a : ℚ
  vx : ℚ
  vy : ℚ
  hp : ℚ
  kills : ℕ
  inputs : List Input
  lastInputSeq : ℤ
  ready : Bool
deriving DecidableEq

/-- A bullet record as stored by `spawnBullet` (server.js line 189). -/
structure Bullet where
  id : String
  x : ℚ
  y : ℚ
  vx : ℚ
  vy : ℚ
  owner : String
  life : ℚ
deriving DecidableEq

/-- Oracles for the JavaScript `Math` functions used by the server.
`rand` is the stream of `Math.random()` results. -/
structure Env where
  cos : ℚ → ℚ
  sin : ℚ → ℚ
  hypot : ℚ → ℚ → ℚ
  pi : ℚ
  rand : ℕ → ℚ

/-- The mutable state of a `GameRoom` (server.js lines 33-49). The two
`setInterval` handles are modelled by `timerOn` (the 1 s countdown timer;
the always-on 45 Hz tick interval lives and dies with the room itself). -/
structure RoomState where
  name : String
  players : List (String × Player)
  bullets : List (String × Bullet)
  seq : ℕ
  map : GameMap
  matchDuration : ℚ
  timeLeft : ℚ
  matchRunning : Bool
  timerOn : Bool
  rIdx : ℕ

/-- `+v.toFixed(2)`: round to two decimal places (JS `toFixed` rounding on
the decimal rendering of a double is modelled as exact half-up rounding). -/
def roundTo2 (q : ℚ) : ℚ := (round (q * 100) : ℤ) / 100

/-- One entry of the compact player list built by `broadcastPlayerList`
(server.js lines 198-201) and by the tick snapshot (lines 410-413). -/
structure PlayerSnap where
  id : String
  name : String
  x : ℚ
  y : ℚ
  a : ℚ
  hp : ℚ
  kills : ℕ
  ready : Bool
deriving DecidableEq

/-- One entry of the tick snapshot's bullet list (server.js lines 414-420). -/
structure BulletSnap where
  id : String
  x : ℚ
  y : ℚ
  vx : ℚ
  vy : ℚ
deriving DecidableEq

/-- A ranking entry `{id, name, kills}` (server.js line 276); the synthetic
Draw record has `id: null`. -/
structure RankEntry where
  id : Option String
  name : String
  kills : ℕ
deriving DecidableEq

def playersCompact (players : List (String × Player)) : List PlayerSnap :=
  players.map (fun e =>
    ⟨e.2.id, e.2.name, roundTo2 e.2.x, roundTo2 e.2.y, roundTo2 e.2.a,
      e.2.hp, e.2.kills, e.2.ready⟩)

def bulletsCompact (bullets : List (String × Bullet)) : List BulletSnap :=
  bullets.map (fun e =>
    ⟨e.2.id, roundTo2 e.2.x, roundTo2 e.2.y, roundTo2 e.2.vx, roundTo2 e.2.vy⟩)

/-- The socket events a room emits (`broadcast` / `io.to(...).emit`). -/
inductive Event where
  | playersList (ps : List PlayerSnap)
  | playerLeft (id : String)
  | playerReadyUpdate (id : String) (ready : Bool)
  | matchStarted (matchDuration : ℚ)
  | timerUpdate (timeLeft : ℚ)
  | matchEnded (rankings : List RankEntry) (winner : Option RankEntry)
  | gameEvent (type : String) (target : Option String) (byId : String)
      (obstacle : Bool) (x : ℚ) (y : ℚ)
  | gameState (t : ℤ) (seq : ℕ) (players : List PlayerSnap)
      (bullets : List BulletSnap) (obstacles : GameMap) (timeLeft : ℚ)
deriving DecidableEq

/-! ## Bullet spawning -/

/-- Digit of `Number.toString(36)`: `0`-`9` then `a`-`z`. -/
def base36Char (n : ℕ) : Char :=
  if n < 10 then Char.ofNat (48 + n) else Char.ofNat (87 + n)

/-- Modelled: `Math.random().toString(36).slice(2, 6)` — the first four
base-36 fraction digits of the sample. (JS trims trailing zeros from the
rendering; the model keeps them, affecting only id strings.) -/
def base36Suffix (r : ℚ) : String :=
  String.mk [base36Char (⌊r * 36⌋.toNat % 36),
             base36Char (⌊r * 36 ^ 2⌋.toNat % 36),
             base36Char (⌊r * 36 ^ 3⌋.toNat % 36),
             base36Char (⌊r * 36 ^ 4⌋.toNat % 36)]

/-- The bullet id `` `${owner}-${Date.now()}-${Math.random()...}` ``
(server.js line 185). -/
def mkBulletId (owner : String) (now : ℤ) (r : ℚ) : String :=
  owner ++ "-" ++ toString now ++ "-" ++ base36Suffix r

/-- `spawnBullet(owner, x, y, angle)` (server.js lines 184-190). -/
def spawnBullet (env : Env) (now : ℤ) (owner : String) (x y angle : ℚ)
    (s : RoomState) : RoomState :=
  let id := mkBulletId owner now (env.rand s.rIdx)
  let speed : ℚ := 400
  let vx := env.cos angle * speed
  let vy := env.sin angle * speed
  { s with bullets := setA id ⟨id, x, y, vx, vy, owner, 5 / 2⟩ s.bullets,
           rIdx := s.rIdx + 1 }

/-! ## Player management -/

/-- `addPlayer(socket, name)` (server.js lines 130-154). -/
def addPlayer (env : Env) (socketId name : String) (s : RoomState) :
    RoomState × List Event :=
  let sp := getSafeSpawn s.map env.rand s.rIdx
  let kills : ℕ := match getA socketId s.players with
    | some prev => prev.kills
    | none => 0
  let p : Player :=
    { id := socketId, name := name, x := sp.x, y := sp.y,
      a := env.rand sp.idx * env.pi * 2,
      vx := 0, vy := 0, hp := 100, kills := kills, inputs := [],
      lastInputSeq := 0, ready := false }
  let s' := { s with players := setA socketId p s.players, rIdx := sp.idx + 1 }
  (s', [Event.playersList (playersCompact s'.players)])

/-- `receiveInput(socketId, input)` (server.js lines 178-182). -/
def receiveInput (socketId : String) (input : Input) (s : RoomState) :
    RoomState :=
  match getA socketId s.players with
  | none => s
  | some p =>
    if s.matchRunning then
      { s with
        players := setA socketId { p with inputs := p.inputs ++ [input] }
          s.players }
    else s

/-! ## Match state machine -/

/-- The per-player reset loop of `startMatch` (server.js lines 230-239):
full health, zero velocity, fresh safe spawn, kills to 0, queue cleared,
ready flag cleared. The heading `a` is not reset. -/
def resetPlayersGo (rand : ℕ → ℚ) (m : GameMap) :
    List (String × Player) → ℕ → List (String × Player) × ℕ
  | [], rIdx => ([], rIdx)
  | (k, p) :: rest, rIdx =>
    let sp := getSafeSpawn m rand rIdx
    let p' := { p with
      hp := 100, vx := 0, vy := 0, x := sp.x, y := sp.y,
      kills := 0, inputs := [], lastInputSeq := 0, ready := false }
    let rest' := resetPlayersGo rand m rest sp.idx
    ((k, p') :: rest'.1, rest'.2)

/-- `startMatch()` (server.js lines 227-252). `stopTimer` followed by
`setInterval` nets to `timerOn := true`. -/
def startMatch (env : Env) (s : RoomState) : RoomState × List Event :=
  if s.matchRunning then (s, [])
  else
    let pr := resetPlayersGo env.rand s.map s.players s.rIdx
    let s' := { s with
      players := pr.1, bullets := [],
      timeLeft := s.matchDuration, matchRunning := true,
      timerOn := true, rIdx := pr.2 }
    (s', [Event.matchStarted s.matchDuration,
          Event.playersList (playersCompact pr.1)])

/-- `setPlayerReady(socketId, ready)` (server.js lines 206-224). -/
def setPlayerReady (env : Env) (socketId : String) (ready : Bool)
    (s : RoomState) : RoomState × List Event :=
  match getA socketId s.players with
  | none => (s, [])
  | some p =>
    let p' := { p with ready := ready }
    let s' := { s with players := setA socketId p' s.players }
    let evs := [Event.playerReadyUpdate socketId ready,
                Event.playersList (playersCompact s'.players)]
    if 0 < s'.players.length ∧ s'.players.all (fun e => e.2.ready) then
      let r := startMatch env s'
      (r.1, evs ++ r.2)
    else (s', evs)

/-- `removePlayer(socketId)` (server.js lines 156-175). `none` means the
room removed itself from the registry and released both timers. -/
def removePlayer (env : Env) (socketId : String) (s : RoomState) :
    Option RoomState × List Event :=
  match getA socketId s.players with
  | none => (some s, [])
  | some _ =>
    let players := eraseA socketId s.players
    let evs := [Event.playerLeft socketId,
                Event.playersList (playersCompact players)]
    if players.isEmpty then (none, evs)
    else
      let s' := { s with players := players }
      if players.all (fun e => e.2.ready) ∧ ¬s'.matchRunning then
        let r := startMatch env s'
        (some r.1, evs ++ r.2)
      else (some s', evs)

/-- Stable insertion into a list sorted descending by `kills`; on equal
kill counts the inserted (earlier) entry stays first, matching the stable
`Array.prototype.sort` with comparator `(a, b) => b.kills - a.kills`. -/
def insertRank (e : RankEntry) : List RankEntry → List RankEntry
  | [] => [e]
  | x :: xs => if x.kills ≤ e.kills then e :: x :: xs else x :: insertRank e xs

/-- `.sort((a, b) => b.kills - a.kills)` (server.js line 277). -/
def sortRankDesc (l : List RankEntry) : List RankEntry :=
  l.foldr insertRank []

/-- `{ id: p.id, name: p.name, kills: p.kills || 0 }` (server.js
line 276). -/
def toRank (e : String × Player) : RankEntry :=
  ⟨some e.2.id, e.2.name, e.2.kills⟩

/-- The rankings of `endMatch` (server.js lines 275-277). -/
def computeRankings (players : List (String × Player)) : List RankEntry :=
  sortRankDesc (players.map toRank)

/-- The winner / draw / no-winner rule of `endMatch`
(server.js lines 279-298). -/
def computeWinner (rankings : List RankEntry) : Option RankEntry :=
  match rankings with
  | [] => none
  | top :: _ =>
    if rankings.all (fun r => r.kills = 0) then none
    else if 1 < (rankings.filter (fun r => r.kills = top.kills)).length then
      some ⟨none, "Draw", top.kills⟩
    else some top

/-- `endMatch()` (server.js lines 269-307). -/
def endMatch (s : RoomState) : RoomState × List Event :=
  if s.matchRunning then
    let s₁ := { s with matchRunning := false, timerOn := false }
    let rankings := computeRankings s₁.players
    let winner := computeWinner rankings
    let players := s₁.players.map (fun e => (e.1, { e.2 with ready := false }))
    let s₂ := { s₁ with players := players }
    (s₂, [Event.matchEnded rankings winner,
          Event.playersList (playersCompact players)])
  else (s, [])

/-- `updateTimer()` (server.js lines 261-266). -/
def updateTimer (s : RoomState) : RoomState × List Event :=
  if s.matchRunning then
    let s' := { s with timeLeft := s.timeLeft - 1 }
    let evs := [Event.timerUpdate s'.timeLeft]
    if s'.timeLeft ≤ 0 then
      let r := endMatch s'
      (r.1, evs ++ r.2)
    else (s', evs)
  else (s, [])

/-- `restartMatch()` (server.js lines 311-313). -/
def restartMatch (env : Env) (s : RoomState) : RoomState × List Event :=
  if s.matchRunning then (s, []) else startMatch env s

/-- The `GameRoom` constructor (server.js lines 33-49). -/
def mkRoom (env : Env) (name : String) (idx : ℕ) : RoomState :=
  let g := generateMap env.rand idx
  { name := name, players := [], bullets := [], seq := 0, map := g.1,
    matchDuration := 65, timeLeft := 65, matchRunning := false,
    timerOn := false, rIdx := g.2 }

/-- The `socket.on("game-input")` handler (server.js lines 600-605):
normalize the room name, drop the event if the room is unknown, otherwise
forward to `receiveInput`. -/
def handleGameInput (rooms : List (String × RoomState)) (roomName : String)
    (socketId : String) (input : Input) : List (String × RoomState) :=
  let key := roomName.trim.toLower
  match getA key rooms with
  | none => rooms
  | some g => setA key (receiveInput socketId input g) rooms

/-! ## Simulation tick -/

/-- The pure part of one queued input's processing (server.js lines
325-341): heading turn, thrust along heading, speed clamp by uniform
rescaling, and recording of the input's sequence number. -/
def stepInput (env : Env) (p : Player) (input : Input) : Player :=
  let a := p.a + input.turn * 8 * GAME_DT
  let vx := p.vx + env.cos a * input.thrust * 700 * GAME_DT
  let vy := p.vy + env.sin a * input.thrust * 700 * GAME_DT
  let spd := env.hypot vx vy
  let vx' := if 600 < spd then vx * (600 / spd) else vx
  let vy' := if 600 < spd then vy * (600 / spd) else vy
  { p with a := a, vx := vx', vy := vy', lastInputSeq := input.seq }

/-- One iteration of the input-draining loop (server.js lines 323-346):
update the player, and if the input has the fire flag, spawn a bullet
20 units ahead of the updated player along its heading. -/
def applyOneInput (env : Env) (now : ℤ) (id : String)
    (acc : Player × RoomState) (input : Input) : Player × RoomState :=
  let p := stepInput env acc.1 input
  let st :=
    if input.fire then
      spawnBullet env now id (p.x + env.cos p.a * 20) (p.y + env.sin p.a * 20)
        p.a acc.2
    else acc.2
  (p, st)

/-- The input-processing phase of `tick` (server.js lines 321-347): every
player drains its whole queue in arrival order; spawned bullets go into
the room's bullet store. -/
def inputStep (env : Env) (now : ℤ)
    (acc : List (String × Player) × RoomState) (e : String × Player) :
    List (String × Player) × RoomState :=
  let r := e.2.inputs.foldl (applyOneInput env now e.1) (e.2, acc.2)
  (acc.1 ++ [(e.1, { r.1 with inputs := [] })], r.2)

/-- The input-processing loop over all players. -/
def inputPhase (env : Env) (now : ℤ) (s : RoomState) : RoomState :=
  let r := s.players.foldl (inputStep env now) ([], s)
  { r.2 with players := r.1 }

/-- The player-movement phase of `tick` for one player (server.js lines
350-357): integrate, damp, full-stop on obstacle collision (radius 20),
clamp to the arena bounds. -/
def movePlayer (m : GameMap) (p : Player) : Player :=
  let oldX := p.x
  let oldY := p.y
  let x := p.x + p.vx * GAME_DT
  let y := p.y + p.vy * GAME_DT
  let vx := p.vx * (95 / 100)
  let vy := p.vy * (95 / 100)
  let hit := collidesWithObstacles m x y 20
  let x' := if hit then oldX else x
  let y' := if hit then oldY else y
  { p with
    x := max 0 (min MAP_WIDTH x'), y := max 0 (min MAP_HEIGHT y'),
    vx := if hit then 0 else vx, vy := if hit then 0 else vy }

/-- The first player the bullet strikes: iteration order is the entity
store's insertion order, the owner is skipped (`p.id === b.owner`), the
hit test is a squared-distance test with radius 20 (server.js lines
376-379). -/
def findHit (b : Bullet) (players : List (String × Player)) :
    Option (String × Player) :=
  players.find? (fun e =>
    !decide (e.2.id = b.owner) &&
    decide ((b.x - e.2.x) * (b.x - e.2.x) + (b.y - e.2.y) * (b.y - e.2.y)
      ≤ 20 * 20))

/-- Accumulator of the bullet phase: surviving bullets so far, current
players, next random index, emitted events. -/
structure BulletAcc where
  bullets : List (String × Bullet)
  players : List (String × Player)
  rIdx : ℕ
  events : List Event

/-- `const killer = this.players.get(b.owner); if (killer) killer.kills =
(killer.kills || 0) + 1` (server.js lines 383-384): the owner's kill count
increments only if the owner is still in the room. -/
def bumpKills (owner : String) (players : List (String × Player)) :
    List (String × Player) :=
  match getA owner players with
  | some killer => setA owner { killer with kills := killer.kills + 1 } players
  | none => players

/-- Resolution of a bullet striking player `pid` (server.js lines
380-403): 20 damage; on a kill the owner's kill count increments (if the
owner is still in the room, via `bumpKills`), the victim fully heals and
respawns at a fresh safe spawn, and a "killed" event is emitted at the
respawn point; otherwise a "hit" event is emitted. -/
def applyHit (env : Env) (m : GameMap) (acc : BulletAcc) (b : Bullet)
    (pid : String) (p : Player) : BulletAcc :=
  let p₁ := { p with hp := p.hp - 20 }
  if p₁.hp ≤ 0 then
    let players₁ := setA pid p₁ acc.players
    let players₂ := bumpKills b.owner players₁
    let sp := getSafeSpawn m env.rand acc.rIdx
    let p₂ := { p₁ with hp := 100, x := sp.x, y := sp.y }
    { acc with
      players := setA pid p₂ players₂, rIdx := sp.idx,
      events := acc.events ++
        [Event.gameEvent "killed" (some pid) b.owner false p₂.x p₂.y] }
  else
    { acc with
      players := setA pid p₁ acc.players,
      events := acc.events ++
        [Event.gameEvent "hit" (some pid) b.owner false p₁.x p₁.y] }

/-- One iteration of the bullet loop (server.js lines 360-407): move and
age the bullet, drop it on lifetime expiry, on obstacle collision
(radius 2, with a "hit" event), or on striking a player (`applyHit` on
the first non-owner player within radius 20). Only the bullet under
consideration is ever removed, so folding over the pre-phase entries
matches the live `Map` iteration. -/
def processBullet (env : Env) (m : GameMap) (acc : BulletAcc)
    (e : String × Bullet) : BulletAcc :=
  let b := { e.2 with
    x := e.2.x + e.2.vx * GAME_DT, y := e.2.y + e.2.vy * GAME_DT,
    life := e.2.life - GAME_DT }
  if b.life ≤ 0 then
    { acc with }
  else if collidesWithObstacles m b.x b.y 2 then
    { acc with events := acc.events ++
        [Event.gameEvent "hit" none b.owner true b.x b.y] }
  else
    match findHit b acc.players with
    | none => { acc with bullets := acc.bullets ++ [(e.1, b)] }
    | some (pid, p) => applyHit env m acc b pid p

/-- `tick()` (server.js lines 316-426): a no-op while the match is not
running; otherwise advance the sequence number, process inputs, move
players, move bullets and resolve their collisions, and broadcast the
snapshot. -/
def tick (env : Env) (now : ℤ) (s : RoomState) : RoomState × List Event :=
  if s.matchRunning then
    let s₁ := { s with seq := s.seq + 1 }
    let s₂ := inputPhase env now s₁
    let s₃ := { s₂ with
      players := s₂.players.map
        (fun (e : String × Player) => (e.1, movePlayer s₂.map e.2)) }
    let acc := s₃.bullets.foldl (processBullet env s₃.map)
      ⟨[], s₃.players, s₃.rIdx, []⟩
    let s₄ := { s₃ with
      bullets := acc.bullets, players := acc.players, rIdx := acc.rIdx }
    (s₄, acc.events ++
      [Event.gameState now s₄.seq (playersCompact s₄.players)
        (bulletsCompact s₄.bullets) s₄.map s₄.timeLeft])
  else (s, [])

/-- A sequence of simulation ticks at the given wall-clock instants. -/
def runTicks (env : Env) (times : List ℤ) (s : RoomState) : RoomState :=
  times.foldl (fun st t => (tick env t st).1) s

/-- A `spawnBullet` call's arguments, for reasoning about sequences of
spawns. -/
structure SpawnCmd where
  now : ℤ
  owner : String
  x : ℚ
  y : ℚ
  angle : ℚ

/-- A sequence of `spawnBullet` calls. -/
def runSpawns (env : Env) (cmds : List SpawnCmd) (s : RoomState) : RoomState :=
  cmds.foldl (fun st c => spawnBullet env c.now c.owner c.x c.y c.angle st) s

/-- The per-player invariant of the claim: health within `[0, 100]` and
position within the arena bounds. -/
def PlayerOK (p : Player) : Prop :=
  0 ≤ p.hp ∧ p.hp ≤ 100 ∧ 0 ≤ p.x ∧ p.x ≤ MAP_WIDTH ∧
  0 ≤ p.y ∧ p.y ≤ MAP_HEIGHT

/-- The room-level invariant: every player satisfies `PlayerOK`, and the
player store has distinct keys (as a JavaScript `Map` always does). -/
def RoomOK (s : RoomState) : Prop :=
  (∀ e ∈ s.players, PlayerOK e.2) ∧ (keysA s.players).Nodup

/-! ## Concrete fixtures (used by witness theorems) -/

/-- A concrete oracle environment: zero trig, `Math.random() = 1/2`. -/
def envZero : Env :=
  { cos := fun _ => 0, sin := fun _ => 0, hypot := fun _ _ => 0, pi := 3,
    rand := fun _ => 1 / 2 }

/-- An arena with no obstacles. -/
def emptyMap : GameMap :=
  { walls := [], pillars := [], width := MAP_WIDTH, height := MAP_HEIGHT }

/-- A concrete player record. -/
def testPlayer (id : String) (kills : ℕ) (ready : Bool) : Player :=
  { id := id, name := id, x := 1, y := 1, a := 0, vx := 0, vy := 0, hp := 100,
    kills := kills, inputs := [], lastInputSeq := 0, ready := ready }

/-- A concrete room over the empty arena. -/
def roomWith (players : List (String × Player)) (running : Bool) : RoomState :=
  { name := "r", players := players, bullets := [], seq := 0, map := emptyMap,
    matchDuration := 65, timeLeft := 65, matchRunning := running,
    timerOn := running, rIdx := 0 }

/-- A concrete bullet with the initial 2.5 s lifetime. -/
def testBullet : Bullet :=
  { id := "b", x := 0, y := 0, vx := 0, vy := 0, owner := "o", life := 5 / 2 }

/-- A running room whose only entity is `testBullet`. -/
def bulletRoom : RoomState :=
  { roomWith [] true with bullets := [("b", testBullet)] }

/-- A concrete input record. -/
def testInput : Input := { seq := 1, turn := 0, thrust := 0, fire := false }

/-- Three players with kills `[5, 5, 3]`. -/
def drawPlayers : List (String × Player) :=
  [("p1", testPlayer "p1" 5 false), ("p2", testPlayer "p2" 5 false),
   ("p3", testPlayer "p3" 3 false)]

/-- Three players with kills `[0, 0, 0]`. -/
def zeroPlayers : List (String × Player) :=
  [("p1", testPlayer "p1" 0 false), ("p2", testPlayer "p2" 0 false),
   ("p3", testPlayer "p3" 0 false)]

/-- Three players with kills `[7, 2, 2]`. -/
def clearPlayers : List (String × Player) :=
  [("p1", testPlayer "p1" 7 false), ("p2", testPlayer "p2" 2 false),
   ("p3", testPlayer "p3" 2 false)]

/-!
# Claims

Each claim of the specification gets exactly one theorem below.
-/

/-! ### Supporting lemmas -/

theorem setA_length_pos {β : Type} (k : String) (v : β)
    (l : List (String × β)) : 0 < (setA k v l).length := by
  cases l with
  | nil => simp [setA]
  | cons e rest => by_cases h : e.1 = k <;> simp [setA, h]

theorem startMatch_matchRunning (env : Env) {s : RoomState}
    (h : s.matchRunning = false) :
    (startMatch env s).1.matchRunning = true := by
  simp [startMatch, h]

theorem mem_setA_nodup {β : Type} {k : String} {v : β} :
    ∀ {l : List (String × β)}, (keysA l).Nodup →
    ∀ {e : String × β}, e ∈ setA k v l → e = (k, v) ∨ (e ∈ l ∧ e.1 ≠ k) := by
  intro l
  induction l with
  | nil =>
    intro _ e h
    exact Or.inl (by simpa [setA] using h)
  | cons x rest ih =>
    intro hnd e h
    rw [keysA_cons, List.nodup_cons] at hnd
    by_cases hx : x.1 = k
    · rw [setA, if_pos hx] at h
      rcases List.mem_cons.mp h with h | h
      · exact Or.inl h
      · refine Or.inr ⟨List.mem_cons_of_mem _ h, ?_⟩
        intro hek
        exact hnd.1 (hx ▸ hek ▸ List.mem_map_of_mem (·.1) h)
    · rw [setA, if_neg hx] at h
      rcases List.mem_cons.mp h with h | h
      · exact Or.inr ⟨h ▸ List.mem_cons_self _ _, h ▸ hx⟩
      · rcases ih hnd.2 h with h | h
        · exact Or.inl h
        · exact Or.inr ⟨List.mem_cons_of_mem _ h.1, h.2⟩

theorem keysA_map {β : Type} (f : String × β → β) :
    ∀ l : List (String × β),
      keysA (l.map (fun e => (e.1, f e))) = keysA l := by
  intro l
  induction l with
  | nil => rfl
  | cons x rest ih => simp [keysA_cons, ih]

theorem stepInput_hp (env : Env) (p : Player) (i : Input) :
    (stepInput env p i).hp = p.hp := rfl

theorem stepInput_pos (env : Env) (p : Player) (i : Input) :
    (stepInput env p i).x = p.x ∧ (stepInput env p i).y = p.y := ⟨rfl, rfl⟩

theorem foldl_stepInput_frame (env : Env) :
    ∀ (l : List Input) (p : Player),
      (l.foldl (stepInput env) p).hp = p.hp ∧
      (l.foldl (stepInput env) p).x = p.x ∧
      (l.foldl (stepInput env) p).y = p.y := by
  intro l
  induction l with
  | nil => intro p; exact ⟨rfl, rfl, rfl⟩
  | cons i rest ih =>
    intro p
    simpa [List.foldl_cons, stepInput_hp, stepInput_pos] using ih (stepInput env p i)

theorem foldl_applyOneInput_fst (env : Env) (now : ℤ) (id : String) :
    ∀ (l : List Input) (p : Player) (st : RoomState),
      (l.foldl (applyOneInput env now id) (p, st)).1 =
        l.foldl (stepInput env) p := by
  intro l
  induction l with
  | nil => intro p st; rfl
  | cons i rest ih => intro p st; exact ih _ _

theorem foldl_applyOneInput_snd (env : Env) (now : ℤ) (id : String) :
    ∀ (l : List Input) (p : Player) (st : RoomState),
      ((l.foldl (applyOneInput env now id) (p, st)).2).players = st.players ∧
      ((l.foldl (applyOneInput env now id) (p, st)).2).map = st.map ∧
      ((l.foldl (applyOneInput env now id) (p, st)).2).matchRunning
        = st.matchRunning ∧
      ((l.foldl (applyOneInput env now id) (p, st)).2).seq = st.seq ∧
      ((l.foldl (applyOneInput env now id) (p, st)).2).timeLeft
        = st.timeLeft := by
  intro l
  induction l with
  | nil => intro p st; exact ⟨rfl, rfl, rfl, rfl, rfl⟩
  | cons i rest ih =>
    intro p st
    rw [List.foldl_cons]
    have hpair : applyOneInput env now id (p, st) i =
        (stepInput env p i, (applyOneInput env now id (p, st) i).2) := rfl
    rw [hpair]
    have hst : ((applyOneInput env now id (p, st) i).2).players = st.players ∧
        ((applyOneInput env now id (p, st) i).2).map = st.map ∧
        ((applyOneInput env now id (p, st) i).2).matchRunning
          = st.matchRunning ∧
        ((applyOneInput env now id (p, st) i).2).seq = st.seq ∧
        ((applyOneInput env now id (p, st) i).2).timeLeft = st.timeLeft := by
      by_cases hf : i.fire = true <;> simp [applyOneInput, hf, spawnBullet]
    obtain ⟨h1, h2, h3, h4, h5⟩ := hst
    obtain ⟨g1, g2, g3, g4, g5⟩ :=
      ih (stepInput env p i) ((applyOneInput env now id (p, st) i).2)
    exact ⟨g1.trans h1, g2.trans h2, g3.trans h3, g4.trans h4, g5.trans h5⟩

theorem foldl_inputStep_spec (env : Env) (now : ℤ) :
    ∀ (l : List (String × Player)) (acc : List (String × Player))
      (st : RoomState),
      (l.foldl (inputStep env now) (acc, st)).1 =
        acc ++ l.map (fun e => (e.1,
          { e.2.inputs.foldl (stepInput env) e.2 with inputs := [] })) ∧
      ((l.foldl (inputStep env now) (acc, st)).2).players = st.players ∧
      ((l.foldl (inputStep env now) (acc, st)).2).map = st.map ∧
      ((l.foldl (inputStep env now) (acc, st)).2).matchRunning
        = st.matchRunning ∧
      ((l.foldl (inputStep env now) (acc, st)).2).seq = st.seq ∧
      ((l.foldl (inputStep env now) (acc, st)).2).timeLeft = st.timeLeft := by
  intro l
  induction l with
  | nil => intro acc st; simp
  | cons e rest ih =>
    intro acc st
    rw [List.foldl_cons]
    have hfst := foldl_applyOneInput_fst env now e.1 e.2.inputs e.2 st
    obtain ⟨hp1, hp2, hp3, hp4, hp5⟩ :=
      foldl_applyOneInput_snd env now e.1 e.2.inputs e.2 st
    have hstep : inputStep env now (acc, st) e =
        (acc ++ [(e.1, { e.2.inputs.foldl (stepInput env) e.2 with
          inputs := [] })],
         (e.2.inputs.foldl (applyOneInput env now e.1) (e.2, st)).2) := by
      simp only [inputStep, hfst]
    rw [hstep]
    obtain ⟨g1, g2, g3, g4, g5, g6⟩ := ih
      (acc ++ [(e.1, { e.2.inputs.foldl (stepInput env) e.2 with
        inputs := [] })])
      ((e.2.inputs.foldl (applyOneInput env now e.1) (e.2, st)).2)
    exact ⟨by simp [g1], by rw [g2, hp1], by rw [g3, hp2],
      by rw [g4, hp3], by rw [g5, hp4], by rw [g6, hp5]⟩

theorem inputPhase_spec (env : Env) (now : ℤ) (s : RoomState) :
    (inputPhase env now s).players = s.players.map (fun e => (e.1,
      { e.2.inputs.foldl (stepInput env) e.2 with inputs := [] })) ∧
    (inputPhase env now s).map = s.map ∧
    (inputPhase env now s).matchRunning = s.matchRunning ∧
    (inputPhase env now s).seq = s.seq ∧
    (inputPhase env now s).timeLeft = s.timeLeft := by
  obtain ⟨g1, g2, g3, g4, g5, g6⟩ := foldl_inputStep_spec env now s.players [] s
  exact ⟨by simpa using g1, g3, g4, g5, g6⟩

theorem movePlayer_hp (m : GameMap) (p : Player) :
    (movePlayer m p).hp = p.hp := rfl

theorem movePlayer_bounds (m : GameMap) (p : Player) :
    0 ≤ (movePlayer m p).x ∧ (movePlayer m p).x ≤ MAP_WIDTH ∧
    0 ≤ (movePlayer m p).y ∧ (movePlayer m p).y ≤ MAP_HEIGHT := by
  simp only [movePlayer]
  refine ⟨le_max_left _ _,
    max_le (by norm_num [MAP_WIDTH]) (min_le_left _ _),
    le_max_left _ _,
    max_le (by norm_num [MAP_HEIGHT]) (min_le_left _ _)⟩

theorem mem_insertRank {e y : RankEntry} :
    ∀ {l : List RankEntry}, y ∈ insertRank e l → y = e ∨ y ∈ l := by
  intro l
  induction l with
  | nil => intro h; simpa [insertRank] using h
  | cons x xs ih =>
    intro h
    by_cases hc : x.kills ≤ e.kills
    · rw [insertRank, if_pos hc] at h
      rcases List.mem_cons.mp h with h | h
      · exact Or.inl h
      · exact Or.inr h
    · rw [insertRank, if_neg hc] at h
      rcases List.mem_cons.mp h with h | h
      · exact Or.inr (h ▸ List.mem_cons_self _ _)
      · rcases ih h with h | h
        · exact Or.inl h
        · exact Or.inr (List.mem_cons_of_mem _ h)

theorem insertRank_perm (e : RankEntry) (l : List RankEntry) :
    (insertRank e l).Perm (e :: l) := by
  induction l with
  | nil => simp [insertRank]
  | cons x xs ih =>
    by_cases hc : x.kills ≤ e.kills
    · rw [insertRank, if_pos hc]
    · rw [insertRank, if_neg hc]
      exact (ih.cons x).trans (List.Perm.swap e x xs)

theorem sortRankDesc_perm (l : List RankEntry) : (sortRankDesc l).Perm l := by
  induction l with
  | nil => simp [sortRankDesc]
  | cons x xs ih =>
    exact (insertRank_perm x (sortRankDesc xs)).trans (ih.cons x)

theorem sorted_insertRank (e : RankEntry) {l : List RankEntry}
    (h : l.Pairwise (fun a b => b.kills ≤ a.kills)) :
    (insertRank e l).Pairwise (fun a b => b.kills ≤ a.kills) := by
  induction l with
  | nil => simp [insertRank]
  | cons x xs ih =>
    rw [List.pairwise_cons] at h
    by_cases hc : x.kills ≤ e.kills
    · rw [insertRank, if_pos hc, List.pairwise_cons]
      refine ⟨?_, List.pairwise_cons.mpr h⟩
      intro y hy
      rcases List.mem_cons.mp hy with rfl | hy
      · exact hc
      · exact le_trans (h.1 y hy) hc
    · rw [insertRank, if_neg hc, List.pairwise_cons]
      refine ⟨?_, ih h.2⟩
      intro y hy
      rcases mem_insertRank hy with rfl | hy
      · exact le_of_not_le hc
      · exact h.1 y hy

theorem sortRankDesc_sorted (l : List RankEntry) :
    (sortRankDesc l).Pairwise (fun a b => b.kills ≤ a.kills) := by
  induction l with
  | nil => simp [sortRankDesc]
  | cons x xs ih => exact sorted_insertRank x ih

/-- The maximum kill count over a room's players. -/
def maxKills (ps : List (String × Player)) : ℕ :=
  (ps.map (fun e => e.2.kills)).foldr max 0

theorem le_maxKills {ps : List (String × Player)} :
    ∀ e ∈ ps, e.2.kills ≤ maxKills ps := by
  induction ps with
  | nil => intro e he; simp at he
  | cons x xs ih =>
    intro e he
    rcases List.mem_cons.mp he with rfl | he
    · exact le_max_left _ _
    · exact le_trans (ih e he) (le_max_right _ _)

theorem maxKills_mem {ps : List (String × Player)} (h : ps ≠ []) :
    ∃ e ∈ ps, e.2.kills = maxKills ps := by
  induction ps with
  | nil => exact absurd rfl h
  | cons x xs ih =>
    rcases eq_or_ne xs [] with rfl | hxs
    · exact ⟨x, List.mem_cons_self _ _, by simp [maxKills]⟩
    · rcases le_or_lt (maxKills xs) x.2.kills with hle | hlt
      · refine ⟨x, List.mem_cons_self _ _, ?_⟩
        rw [show maxKills (x :: xs) = max x.2.kills (maxKills xs) from rfl,
          max_eq_left hle]
      · obtain ⟨e, he, hk⟩ := ih hxs
        refine ⟨e, List.mem_cons_of_mem _ he, ?_⟩
        rw [hk, show maxKills (x :: xs) = max x.2.kills (maxKills xs) from rfl,
          max_eq_right (le_of_lt hlt)]

theorem computeRankings_perm (ps : List (String × Player)) :
    (computeRankings ps).Perm (ps.map toRank) :=
  sortRankDesc_perm _

theorem computeRankings_sorted (ps : List (String × Player)) :
    (computeRankings ps).Pairwise (fun a b => b.kills ≤ a.kills) :=
  sortRankDesc_sorted _

theorem computeRankings_head_kills {ps : List (String × Player)}
    {top : RankEntry} {rest : List RankEntry}
    (hE : computeRankings ps = top :: rest) : top.kills = maxKills ps := by
  have hperm := computeRankings_perm ps
  have hne : ps ≠ [] := by
    intro h
    have hlen := hperm.length_eq
    rw [hE, h] at hlen
    simp at hlen
  obtain ⟨e, he, hk⟩ := maxKills_mem hne
  have htopmem : top ∈ ps.map toRank := hperm.mem_iff.mp (hE ▸ List.mem_cons_self _ _)
  obtain ⟨e', he', hte⟩ := List.mem_map.mp htopmem
  have h1 : top.kills ≤ maxKills ps := by
    rw [← hte]
    exact le_maxKills e' he'
  have h2 : maxKills ps ≤ top.kills := by
    have hmem : toRank e ∈ computeRankings ps :=
      hperm.mem_iff.mpr (List.mem_map_of_mem toRank he)
    rw [hE] at hmem
    rcases List.mem_cons.mp hmem with h | h
    · rw [← hk, ← h]
      exact le_of_eq rfl
    · have hsorted := computeRankings_sorted ps
      rw [hE, List.pairwise_cons] at hsorted
      have := hsorted.1 _ h
      rw [← hk]
      exact this
  exact le_antisymm h1 h2

theorem computeRankings_filter_length (ps : List (String × Player)) (K : ℕ) :
    ((computeRankings ps).filter (fun r => r.kills = K)).length =
    (ps.filter (fun e => e.2.kills = K)).length := by
  have h1 := (computeRankings_perm ps).filter (fun r => decide (r.kills = K))
  rw [h1.length_eq, List.filter_map, List.length_map]
  rfl

theorem computeRankings_all_zero {ps : List (String × Player)}
    (h : ∀ e ∈ ps, e.2.kills = 0) :
    (computeRankings ps).all (fun r => r.kills = 0) = true := by
  rw [List.all_eq_true]
  intro r hr
  obtain ⟨e, he, rfl⟩ :=
    List.mem_map.mp ((computeRankings_perm ps).mem_iff.mp hr)
  simpa [toRank] using h e he

theorem computeRankings_not_all_zero {ps : List (String × Player)}
    (h : ∃ e ∈ ps, e.2.kills ≠ 0) :
    (computeRankings ps).all (fun r => r.kills = 0) = false := by
  obtain ⟨e, he, hk⟩ := h
  rw [← Bool.not_eq_true, List.all_eq_true]
  intro hall
  have hmem : toRank e ∈ computeRankings ps :=
    (computeRankings_perm ps).mem_iff.mpr (List.mem_map_of_mem toRank he)
  have := hall _ hmem
  simp [toRank] at this
  exact hk this

/-- **C1**: when a match ends, `endMatch` broadcasts rankings equal to the
room's players sorted by kill count descending (a sorted permutation of
the player records), and the winner is: absent when there are no players;
absent when every player has zero kills; the synthetic
`{id: null, name: "Draw", kills: maxKills}` record when two or more
players share the maximum kill count; otherwise the single top-ranked
player. In particular, kills `[5,5,3]` give a Draw at 5, `[0,0,0]` give no
winner, and `[7,2,2]` give the player with 7 kills. -/
theorem c1_endMatch_rankings_winner :
    (∀ s : RoomState, s.matchRunning = true →
      Event.matchEnded (computeRankings s.players)
        (computeWinner (computeRankings s.players)) ∈ (endMatch s).2) ∧
    (∀ ps : List (String × Player),
      (computeRankings ps).Pairwise (fun a b => b.kills ≤ a.kills) ∧
      (computeRankings ps).Perm (ps.map toRank)) ∧
    computeWinner (computeRankings []) = none ∧
    (∀ ps : List (String × Player), (∀ e ∈ ps, e.2.kills = 0) →
      computeWinner (computeRankings ps) = none) ∧
    (∀ ps : List (String × Player), (∃ e ∈ ps, e.2.kills ≠ 0) →
      1 < (ps.filter (fun e => e.2.kills = maxKills ps)).length →
      computeWinner (computeRankings ps) = some ⟨none, "Draw", maxKills ps⟩) ∧
    (∀ ps : List (String × Player), (∃ e ∈ ps, e.2.kills ≠ 0) →
      (ps.filter (fun e => e.2.kills = maxKills ps)).length = 1 →
      ∃ top rest, computeRankings ps = top :: rest ∧
        computeWinner (computeRankings ps) = some top ∧
        top.kills = maxKills ps) ∧
    computeWinner (computeRankings drawPlayers) = some ⟨none, "Draw", 5⟩ ∧
    computeWinner (computeRankings zeroPlayers) = none ∧
    computeWinner (computeRankings clearPlayers) = some ⟨some "p1", "p1", 7⟩
    := by
  have hkey : ∀ (ps : List (String × Player)), (∃ e ∈ ps, e.2.kills ≠ 0) →
      ∃ top rest, computeRankings ps = top :: rest ∧
        top.kills = maxKills ps ∧
        (top :: rest).all (fun r => r.kills = 0) = false ∧
        ((top :: rest).filter (fun r => r.kills = maxKills ps)).length =
          (ps.filter (fun e => e.2.kills = maxKills ps)).length := by
    intro ps hnz
    rcases hE : computeRankings ps with _ | ⟨top, rest⟩
    · exfalso
      obtain ⟨e, he, _⟩ := hnz
      have hlen := (computeRankings_perm ps).length_eq
      rw [hE] at hlen
      simp only [List.length_nil, List.length_map] at hlen
      rw [eq_comm, List.length_eq_zero] at hlen
      rw [hlen] at he
      simp at he
    · have htop := computeRankings_head_kills hE
      have hallf := computeRankings_not_all_zero hnz
      rw [hE] at hallf
      have hfilt := computeRankings_filter_length ps top.kills
      rw [hE] at hfilt
      rw [htop] at hfilt
      exact ⟨top, rest, rfl, htop, hallf, hfilt⟩
  refine ⟨?_, fun ps => ⟨computeRankings_sorted ps, computeRankings_perm ps⟩,
    rfl, ?_, ?_, ?_, by decide, by decide, by decide⟩
  · intro s h
    simp [endMatch, h]
  · intro ps h
    rcases hE : computeRankings ps with _ | ⟨top, rest⟩
    · rfl
    · have hall := computeRankings_all_zero h
      rw [hE] at hall
      simp [computeWinner, hall]
  · intro ps hnz hcount
    obtain ⟨top, rest, hE, htop, hallf, hfilt⟩ := hkey ps hnz
    rw [hE]
    have hc2 : 1 < ((top :: rest).filter
        (fun r => r.kills = top.kills)).length := by
      rw [htop]
      omega
    simp only [computeWinner, hallf, Bool.false_eq_true, if_false,
      if_pos hc2]
    rw [htop]
  · intro ps hnz hcount
    obtain ⟨top, rest, hE, htop, hallf, hfilt⟩ := hkey ps hnz
    refine ⟨top, rest, hE, ?_, htop⟩
    rw [hE]
    have hc2 : ¬(1 < ((top :: rest).filter
        (fun r => r.kills = top.kills)).length) := by
      rw [htop]
      omega
    simp only [computeWinner, hallf, Bool.false_eq_true, if_false,
      if_neg hc2]

theorem c1_endMatch_rankings_winner_witness :
    Event.matchEnded (computeRankings drawPlayers)
      (computeWinner (computeRankings drawPlayers))
        ∈ (endMatch (roomWith drawPlayers true)).2 ∧
    computeWinner (computeRankings zeroPlayers) = none ∧
    computeWinner (computeRankings drawPlayers)
      = some ⟨none, "Draw", maxKills drawPlayers⟩ ∧
    (∃ top rest, computeRankings clearPlayers = top :: rest ∧
      computeWinner (computeRankings clearPlayers) = some top ∧
      top.kills = maxKills clearPlayers) :=
  ⟨c1_endMatch_rankings_winner.1 (roomWith drawPlayers true) rfl,
   c1_endMatch_rankings_winner.2.2.2.1 zeroPlayers (by decide),
   c1_endMatch_rankings_winner.2.2.2.2.1 drawPlayers (by decide) (by decide),
   c1_endMatch_rankings_winner.2.2.2.2.2.1 clearPlayers (by decide)
     (by decide)⟩

/-- **C2**: for a room with players that is not running, the match
transitions to Running if and only if every player has `ready = true`,
checked after any ready-flag change (`setPlayerReady`) and after any
player removal (`removePlayer`); in particular removing a non-ready
player from a room where all remaining players are ready starts the
match. -/
theorem c2_ready_gating :
    (∀ (env : Env) (s : RoomState) (socketId : String) (rdy : Bool)
        (p : Player), s.matchRunning = false →
      getA socketId s.players = some p →
      ((setPlayerReady env socketId rdy s).1.matchRunning = true ↔
        (setA socketId { p with ready := rdy } s.players).all
          (fun e => e.2.ready) = true)) ∧
    (∀ (env : Env) (s : RoomState) (socketId : String) (p : Player),
      s.matchRunning = false → getA socketId s.players = some p →
      eraseA socketId s.players ≠ [] →
      ∃ s', (removePlayer env socketId s).1 = some s' ∧
        (s'.matchRunning = true ↔
          (eraseA socketId s.players).all (fun e => e.2.ready) = true)) := by
  constructor
  · intro env s socketId rdy p hrun hget
    simp only [setPlayerReady, hget]
    by_cases hall : (setA socketId { p with ready := rdy } s.players).all
      (fun e => e.2.ready) = true
    · rw [if_pos ⟨setA_length_pos _ _ _, hall⟩]
      exact iff_of_true (startMatch_matchRunning env hrun) hall
    · rw [if_neg (fun hc => hall hc.2)]
      exact iff_of_false (by simpa using hrun) hall
  · intro env s socketId p hrun hget hne
    simp only [removePlayer, hget]
    have hie : (eraseA socketId s.players).isEmpty = false := by
      rcases hE : eraseA socketId s.players with _ | ⟨e, rest⟩
      · exact absurd hE hne
      · rfl
    simp only [hie, Bool.false_eq_true, if_false]
    by_cases hall : (eraseA socketId s.players).all
      (fun e => e.2.ready) = true
    · rw [if_pos ⟨hall, by simpa using hrun⟩]
      exact ⟨_, rfl, iff_of_true (startMatch_matchRunning env hrun) hall⟩
    · rw [if_neg (fun hc => hall hc.1)]
      exact ⟨_, rfl, iff_of_false (by simpa using hrun) hall⟩

theorem c2_ready_gating_witness :
    ((setPlayerReady envZero "p1" true
      (roomWith [("p1", testPlayer "p1" 0 false)] false)).1.matchRunning
        = true ↔
      (setA "p1" { testPlayer "p1" 0 false with ready := true }
        [("p1", testPlayer "p1" 0 false)]).all
          (fun e => e.2.ready) = true) ∧
    (∃ s', (removePlayer envZero "p2"
        (roomWith [("p1", testPlayer "p1" 0 true),
                   ("p2", testPlayer "p2" 0 false)] false)).1 = some s' ∧
      (s'.matchRunning = true ↔
        (eraseA "p2" [("p1", testPlayer "p1" 0 true),
                      ("p2", testPlayer "p2" 0 false)]).all
          (fun e => e.2.ready) = true)) :=
  ⟨c2_ready_gating.1 envZero _ "p1" true (testPlayer "p1" 0 false) rfl rfl,
   c2_ready_gating.2 envZero _ "p2" (testPlayer "p2" 0 false) rfl rfl
     (by simp [eraseA, testPlayer])⟩

/-- **C4**: `startMatch` invoked while the match is already running is a
no-op (same state, no player/timer/bullet reset, no events emitted), and
`endMatch` invoked while the match is not running is a no-op (state
unchanged, no events emitted). -/
theorem c4_idempotence :
    (∀ (env : Env) (s : RoomState), s.matchRunning = true →
      startMatch env s = (s, [])) ∧
    (∀ s : RoomState, s.matchRunning = false → endMatch s = (s, [])) := by
  constructor
  · intro env s h
    simp [startMatch, h]
  · intro s h
    simp [endMatch, h]

theorem c4_idempotence_witness :
    startMatch envZero (roomWith [] true) = (roomWith [] true, []) ∧
    endMatch (roomWith [] false) = (roomWith [] false, []) :=
  ⟨c4_idempotence.1 envZero (roomWith [] true) rfl,
   c4_idempotence.2 (roomWith [] false) rfl⟩

/-- Invariant of the wall-placement loop: pairwise non-overlap and the
8-wall cap are preserved, the attempt counter never passes 100, and the
loop exits only with 8 walls or with the attempt budget spent. -/
theorem genWallsGo_spec (rand : ℕ → ℚ) :
    ∀ (fuel idx : ℕ) (walls : List Wall) (tries : ℕ),
    walls.Pairwise (fun a b => isOverlapping a b = false) →
    walls.length ≤ 8 → tries + fuel = 100 →
    (genWallsGo rand fuel idx walls tries).1.Pairwise
      (fun a b => isOverlapping a b = false) ∧
    (genWallsGo rand fuel idx walls tries).1.length ≤ 8 ∧
    (genWallsGo rand fuel idx walls tries).2.1 ≤ 100 ∧
    ((genWallsGo rand fuel idx walls tries).1.length = 8 ∨
      (genWallsGo rand fuel idx walls tries).2.1 = 100) := by
  intro fuel
  induction fuel with
  | zero =>
    intro idx walls tries hpw hlen htries
    simp only [genWallsGo]
    exact ⟨hpw, hlen, by omega, Or.inr (by omega)⟩
  | succ fuel ih =>
    intro idx walls tries hpw hlen htries
    by_cases h8 : 8 ≤ walls.length
    · simp only [genWallsGo, if_pos h8]
      exact ⟨hpw, hlen, by omega, Or.inl (le_antisymm hlen h8)⟩
    · simp only [genWallsGo, if_neg h8]
      by_cases hov : walls.any
          (fun wall => isOverlapping wall (candidateWall rand idx)) = true
      · simp only [hov, if_true]
        exact ih (idx + 5) walls (tries + 1) hpw hlen (by omega)
      · simp only [hov, if_false]
        refine ih (idx + 5) (walls ++ [candidateWall rand idx]) (tries + 1)
          ?_ ?_ (by omega)
        · rw [List.pairwise_append]
          refine ⟨hpw, List.pairwise_singleton _ _, ?_⟩
          intro a ha b hb
          rw [List.mem_singleton] at hb
          subst hb
          rw [List.any_eq_true] at hov
          push_neg at hov
          simpa using hov a ha
        · rw [List.length_append, List.length_singleton]
          omega

/-- **C5**: for every arena produced by `generateMap`, no two walls
overlap (the strict rectangle-overlap test, which is symmetric, returns
`false` for every pair of accepted walls), the wall count is at most 8,
generation stops after at most 100 candidate attempts, and fewer than 8
walls are accepted only when the attempt cap is reached. -/
theorem c5_map_generation (rand : ℕ → ℚ) (idx : ℕ) :
    (generateMap rand idx).1.walls.Pairwise
      (fun a b => isOverlapping a b = false) ∧
    (∀ a b : Wall, isOverlapping a b = false → isOverlapping b a = false) ∧
    (generateMap rand idx).1.walls.length ≤ 8 ∧
    (genWallsGo rand 100 idx [] 0).2.1 ≤ 100 ∧
    ((generateMap rand idx).1.walls.length = 8 ∨
      (genWallsGo rand 100 idx [] 0).2.1 = 100) := by
  have h := genWallsGo_spec rand 100 idx [] 0 (List.Pairwise.nil) (by simp)
    (by omega)
  refine ⟨h.1, ?_, h.2.1, h.2.2.1, h.2.2.2⟩
  intro a b hab
  simp only [isOverlapping, Bool.and_eq_false_iff, decide_eq_false_iff_not,
    not_lt, gt_iff_lt] at hab ⊢
  tauto

/-- Invariant of the safe-spawn do/while loop: at most 1001 samples, the
returned point is the last sampled one, it lies inside the arena bounds
(given the `Math.random` contract), and it is non-colliding unless the
attempt cap was exhausted. -/
theorem getSafeSpawnGo_spec (m : GameMap) (rand : ℕ → ℚ)
    (hr : ∀ n, 0 ≤ rand n ∧ rand n < 1) :
    ∀ (fuel idx tries : ℕ), tries + fuel = 1000 →
    (getSafeSpawnGo m rand fuel idx tries).tries ≤ 1001 ∧
    (∃ j, (getSafeSpawnGo m rand fuel idx tries).idx = j + 2 ∧
      (getSafeSpawnGo m rand fuel idx tries).x = rand j * MAP_WIDTH ∧
      (getSafeSpawnGo m rand fuel idx tries).y = rand (j + 1) * MAP_HEIGHT) ∧
    (0 ≤ (getSafeSpawnGo m rand fuel idx tries).x ∧
      (getSafeSpawnGo m rand fuel idx tries).x ≤ MAP_WIDTH) ∧
    (0 ≤ (getSafeSpawnGo m rand fuel idx tries).y ∧
      (getSafeSpawnGo m rand fuel idx tries).y ≤ MAP_HEIGHT) ∧
    (collidesWithObstacles m (getSafeSpawnGo m rand fuel idx tries).x
        (getSafeSpawnGo m rand fuel idx tries).y 20 = false ∨
      (getSafeSpawnGo m rand fuel idx tries).tries = 1001) := by
  have hxW : ∀ j, 0 ≤ rand j * MAP_WIDTH ∧ rand j * MAP_WIDTH ≤ MAP_WIDTH := by
    intro j
    constructor
    · exact mul_nonneg (hr j).1 (by norm_num [MAP_WIDTH])
    · calc rand j * MAP_WIDTH ≤ 1 * MAP_WIDTH := by
            apply mul_le_mul_of_nonneg_right (le_of_lt (hr j).2)
            norm_num [MAP_WIDTH]
        _ = MAP_WIDTH := one_mul _
  have hyH : ∀ j, 0 ≤ rand j * MAP_HEIGHT ∧ rand j * MAP_HEIGHT ≤ MAP_HEIGHT := by
    intro j
    constructor
    · exact mul_nonneg (hr j).1 (by norm_num [MAP_HEIGHT])
    · calc rand j * MAP_HEIGHT ≤ 1 * MAP_HEIGHT := by
            apply mul_le_mul_of_nonneg_right (le_of_lt (hr j).2)
            norm_num [MAP_HEIGHT]
        _ = MAP_HEIGHT := one_mul _
  intro fuel
  induction fuel with
  | zero =>
    intro idx tries htries
    simp only [getSafeSpawnGo]
    exact ⟨by omega, ⟨idx, rfl, rfl, rfl⟩, hxW idx, hyH (idx + 1),
      Or.inr (by omega)⟩
  | succ fuel ih =>
    intro idx tries htries
    have hcap : ¬(1000 < tries + 1) := by omega
    by_cases hcol :
        collidesWithObstacles m (rand idx * MAP_WIDTH)
          (rand (idx + 1) * MAP_HEIGHT) 20 = true
    · simp only [getSafeSpawnGo, if_neg hcap, hcol, if_true]
      exact ih (idx + 2) (tries + 1) (by omega)
    · rw [Bool.not_eq_true] at hcol
      simp only [getSafeSpawnGo, if_neg hcap, hcol, Bool.false_eq_true,
        if_false]
      exact ⟨by omega, ⟨idx, rfl, rfl, rfl⟩, hxW idx, hyH (idx + 1),
        by simp [hcol]⟩

theorem getSafeSpawn_bounds (m : GameMap) (rand : ℕ → ℚ) (idx : ℕ)
    (hr : ∀ n, 0 ≤ rand n ∧ rand n < 1) :
    (0 ≤ (getSafeSpawn m rand idx).x ∧
      (getSafeSpawn m rand idx).x ≤ MAP_WIDTH) ∧
    (0 ≤ (getSafeSpawn m rand idx).y ∧
      (getSafeSpawn m rand idx).y ≤ MAP_HEIGHT) := by
  have h := getSafeSpawnGo_spec m rand hr 1000 idx 0 (by omega)
  exact ⟨h.2.2.1, h.2.2.2.1⟩

/-- **C8**: `getSafeSpawn` terminates within at most 1001 samples, always
returns a point inside the arena bounds, and when the attempt cap is
exhausted it returns the last sampled point even if that point collides
with an obstacle at radius 20, rather than raising an error. -/
theorem c8_safe_spawn_bounded (m : GameMap) (rand : ℕ → ℚ) (idx : ℕ)
    (hr : ∀ n, 0 ≤ rand n ∧ rand n < 1) :
    (getSafeSpawn m rand idx).tries ≤ 1001 ∧
    (∃ j, (getSafeSpawn m rand idx).x = rand j * MAP_WIDTH ∧
      (getSafeSpawn m rand idx).y = rand (j + 1) * MAP_HEIGHT) ∧
    (0 ≤ (getSafeSpawn m rand idx).x ∧
      (getSafeSpawn m rand idx).x ≤ MAP_WIDTH) ∧
    (0 ≤ (getSafeSpawn m rand idx).y ∧
      (getSafeSpawn m rand idx).y ≤ MAP_HEIGHT) ∧
    (collidesWithObstacles m (getSafeSpawn m rand idx).x
        (getSafeSpawn m rand idx).y 20 = false ∨
      (getSafeSpawn m rand idx).tries = 1001) := by
  have h := getSafeSpawnGo_spec m rand hr 1000 idx 0 (by omega)
  obtain ⟨j, _, hx, hy⟩ := h.2.1
  exact ⟨h.1, ⟨j, hx, hy⟩, h.2.2.1, h.2.2.2.1, h.2.2.2.2⟩

theorem c8_safe_spawn_bounded_witness :
    (getSafeSpawn emptyMap (fun _ => 1 / 2) 0).tries ≤ 1001 ∧
    (∃ j : ℕ, (getSafeSpawn emptyMap (fun _ => 1 / 2) 0).x
        = (1 : ℚ) / 2 * MAP_WIDTH ∧
      (getSafeSpawn emptyMap (fun _ => 1 / 2) 0).y
        = (1 : ℚ) / 2 * MAP_HEIGHT) ∧
    (0 ≤ (getSafeSpawn emptyMap (fun _ => 1 / 2) 0).x ∧
      (getSafeSpawn emptyMap (fun _ => 1 / 2) 0).x ≤ MAP_WIDTH) ∧
    (0 ≤ (getSafeSpawn emptyMap (fun _ => 1 / 2) 0).y ∧
      (getSafeSpawn emptyMap (fun _ => 1 / 2) 0).y ≤ MAP_HEIGHT) ∧
    (collidesWithObstacles emptyMap (getSafeSpawn emptyMap (fun _ => 1 / 2) 0).x
        (getSafeSpawn emptyMap (fun _ => 1 / 2) 0).y 20 = false ∨
      (getSafeSpawn emptyMap (fun _ => 1 / 2) 0).tries = 1001) :=
  c8_safe_spawn_bounded emptyMap (fun _ => 1 / 2) 0
    (fun _ => ⟨by norm_num, by norm_num⟩)

/-- **C7**: `receiveInput(id, input)` appends the input to player `id`'s
queue if and only if the player exists and a match is running; inputs for
an unknown room, an unknown player, or a stopped match are silently
dropped with no state change. -/
theorem c7_input_gating :
    (∀ (rooms : List (String × RoomState)) (roomName socketId : String)
        (input : Input), getA roomName.trim.toLower rooms = none →
      handleGameInput rooms roomName socketId input = rooms) ∧
    (∀ (rooms : List (String × RoomState)) (roomName socketId : String)
        (input : Input) (g : RoomState),
        getA roomName.trim.toLower rooms = some g →
      handleGameInput rooms roomName socketId input =
        setA roomName.trim.toLower (receiveInput socketId input g) rooms) ∧
    (∀ (s : RoomState) (socketId : String) (input : Input),
        getA socketId s.players = none → receiveInput socketId input s = s) ∧
    (∀ (s : RoomState) (socketId : String) (input : Input),
        s.matchRunning = false → receiveInput socketId input s = s) ∧
    (∀ (s : RoomState) (socketId : String) (input : Input) (p : Player),
        getA socketId s.players = some p → s.matchRunning = true →
      receiveInput socketId input s =
        { s with
          players := setA socketId { p with inputs := p.inputs ++ [input] }
            s.players }) := by
  refine ⟨?_, ?_, ?_, ?_, ?_⟩
  · intro rooms roomName socketId input h
    simp [handleGameInput, h]
  · intro rooms roomName socketId input g h
    simp [handleGameInput, h]
  · intro s socketId input h
    simp [receiveInput, h]
  · intro s socketId input h
    rcases hA : getA socketId s.players with _ | p <;>
      simp [receiveInput, hA, h]
  · intro s socketId input p h hr
    simp [receiveInput, h, hr]

theorem c7_input_gating_witness :
    handleGameInput [] "Room" "p1" testInput = [] ∧
    receiveInput "p1" testInput (roomWith [] false) = roomWith [] false :=
  ⟨c7_input_gating.1 [] "Room" "p1" testInput rfl,
   c7_input_gating.2.2.2.1 (roomWith [] false) "p1" testInput rfl⟩

/-- **C9**: for every room and every sequence of bullet spawns, the bullet
identities present in the room's bullet store stay pairwise distinct: the
store keeps `Map` key semantics, so the id derived by `spawnBullet` from
owner, spawn time and random suffix is unique within the room (a colliding
id replaces the stored bullet rather than duplicating the key). -/
theorem c9_bullet_ids_distinct (env : Env) (cmds : List SpawnCmd)
    (s : RoomState) (h : (keysA s.bullets).Nodup) :
    (keysA (runSpawns env cmds s).bullets).Nodup := by
  induction cmds generalizing s with
  | nil => exact h
  | cons c rest ih =>
    exact ih (spawnBullet env c.now c.owner c.x c.y c.angle s)
      (nodup_keysA_setA _ _ h)

theorem c9_bullet_ids_distinct_witness :
    (keysA (runSpawns envZero
      [⟨0, "o", 0, 0, 0⟩, ⟨0, "o", 0, 0, 0⟩] (roomWith [] true)).bullets).Nodup :=
  c9_bullet_ids_distinct envZero _ (roomWith [] true) (by simp [roomWith, keysA])

/-- **C10**: `addPlayer` modifies only the player-map entry for the given
id: every other player's entry, the bullet store, the running flag, the
remaining time, the tick sequence number and the arena are unchanged; the
added player starts with `hp = 100`, zero velocity, kills preserved from a
prior entry with the same id (0 otherwise), an empty input queue and
`ready = false` — so a player joining mid-match never resets or ends the
running match. -/
theorem c10_addPlayer_frame (env : Env) (socketId pname : String)
    (s : RoomState) :
    (∃ px py pa, getA socketId (addPlayer env socketId pname s).1.players =
      some { id := socketId, name := pname, x := px, y := py, a := pa,
             vx := 0, vy := 0, hp := 100,
             kills := match getA socketId s.players with
               | some prev => prev.kills
               | none => 0,
             inputs := [], lastInputSeq := 0, ready := false }) ∧
    (∀ k, k ≠ socketId →
      getA k (addPlayer env socketId pname s).1.players = getA k s.players) ∧
    (addPlayer env socketId pname s).1.bullets = s.bullets ∧
    (addPlayer env socketId pname s).1.matchRunning = s.matchRunning ∧
    (addPlayer env socketId pname s).1.timeLeft = s.timeLeft ∧
    (addPlayer env socketId pname s).1.seq = s.seq ∧
    (addPlayer env socketId pname s).1.map = s.map :=
  ⟨⟨_, _, _, getA_setA_self _ _ _⟩, fun _ hk => getA_setA_ne _ _ hk,
   rfl, rfl, rfl, rfl, rfl⟩

theorem PlayerOK_of_eq {p q : Player} (hhp : q.hp = p.hp) (hx : q.x = p.x)
    (hy : q.y = p.y) (h : PlayerOK p) : PlayerOK q := by
  unfold PlayerOK at *
  rw [hhp, hx, hy]
  exact h

theorem map_players_ok {l : List (String × Player)}
    {f : String × Player → Player}
    (hf : ∀ e ∈ l, PlayerOK e.2 → PlayerOK (f e))
    (h : ∀ e ∈ l, PlayerOK e.2) :
    ∀ e ∈ l.map (fun e => (e.1, f e)), PlayerOK e.2 := by
  intro e he
  obtain ⟨e₀, he₀, rfl⟩ := List.mem_map.mp he
  exact hf e₀ he₀ (h e₀ he₀)

theorem findHit_mem {b : Bullet} {players : List (String × Player)}
    {pid : String} {p : Player} (h : findHit b players = some (pid, p)) :
    (pid, p) ∈ players :=
  List.mem_of_find?_eq_some h

theorem bumpKills_nodup {owner : String} {players : List (String × Player)}
    (h : (keysA players).Nodup) : (keysA (bumpKills owner players)).Nodup := by
  unfold bumpKills
  rcases getA owner players with _ | killer
  · exact h
  · exact nodup_keysA_setA _ _ h

/-- Striking a player preserves the per-player invariant and the key
distinctness of the player store. -/
theorem applyHit_ok (env : Env) (m : GameMap)
    (hr : ∀ n, 0 ≤ env.rand n ∧ env.rand n < 1) (b : Bullet)
    {acc : BulletAcc} {pid : String} {p : Player}
    (hok : ∀ e ∈ acc.players, PlayerOK e.2)
    (hnd : (keysA acc.players).Nodup)
    (hpmem : (pid, p) ∈ acc.players) :
    (∀ e ∈ (applyHit env m acc b pid p).players, PlayerOK e.2) ∧
    (keysA (applyHit env m acc b pid p).players).Nodup := by
  have hpok := hok _ hpmem
  simp only [applyHit]
  split
  · -- the victim dies: kill credit, full heal, respawn
    have hnd₁ : (keysA (setA pid { p with hp := p.hp - 20 }
        acc.players)).Nodup := nodup_keysA_setA _ _ hnd
    have hnd₂ : (keysA (bumpKills b.owner
        (setA pid { p with hp := p.hp - 20 } acc.players))).Nodup :=
      bumpKills_nodup hnd₁
    refine ⟨?_, nodup_keysA_setA _ _ hnd₂⟩
    intro e he
    rcases mem_setA_nodup hnd₂ he with rfl | ⟨he₂, hne⟩
    · -- the respawned victim
      obtain ⟨⟨hx0, hxW⟩, hy0, hyH⟩ :=
        getSafeSpawn_bounds m env.rand acc.rIdx hr
      exact ⟨by norm_num, by norm_num, hx0, hxW, hy0, hyH⟩
    · -- anyone else in the store after the kill bookkeeping
      revert he₂
      unfold bumpKills
      rcases hG : getA b.owner
          (setA pid { p with hp := p.hp - 20 } acc.players)
        with _ | killer
      · simp only [hG]
        intro he₂
        rcases mem_setA_nodup hnd he₂ with rfl | ⟨he₃, _⟩
        · exact absurd rfl hne
        · exact hok _ he₃
      · simp only [hG]
        intro he₂
        rcases mem_setA_nodup hnd₁ he₂ with rfl | ⟨he₃, _⟩
        · -- the killer, with an incremented kill count
          have hkmem := getA_mem hG
          rcases mem_setA_nodup hnd hkmem with heq | ⟨he₄, _⟩
          · exact absurd (congrArg Prod.fst heq) hne
          · exact @PlayerOK_of_eq killer
              { killer with kills := killer.kills + 1 } rfl rfl rfl
              (hok _ he₄)
        · rcases mem_setA_nodup hnd he₃ with rfl | ⟨he₄, _⟩
          · exact absurd rfl hne
          · exact hok _ he₄
  · -- the victim survives with 20 less health
    rename_i halive
    refine ⟨?_, nodup_keysA_setA _ _ hnd⟩
    intro e he
    rcases mem_setA he with rfl | he₂
    · have h20 : (0 : ℚ) < p.hp - 20 := by
        by_contra hc
        exact halive (by push_neg at hc; simpa using hc)
      exact ⟨le_of_lt h20, by have := hpok.2.1; simp; linarith,
        hpok.2.2.1, hpok.2.2.2.1, hpok.2.2.2.2.1, hpok.2.2.2.2.2⟩
    · exact hok _ he₂

/-- One step of the bullet loop preserves the per-player invariant and the
distinctness of the player store's keys. -/
theorem processBullet_ok (env : Env) (m : GameMap)
    (hr : ∀ n, 0 ≤ env.rand n ∧ env.rand n < 1) (b : String × Bullet)
    {acc : BulletAcc} (hok : ∀ e ∈ acc.players, PlayerOK e.2)
    (hnd : (keysA acc.players).Nodup) :
    (∀ e ∈ (processBullet env m acc b).players, PlayerOK e.2) ∧
    (keysA (processBullet env m acc b).players).Nodup := by
  simp only [processBullet]
  split
  · exact ⟨hok, hnd⟩
  · split
    · exact ⟨hok, hnd⟩
    · split
      · exact ⟨hok, hnd⟩
      · rename_i pid p hfind
        exact applyHit_ok env m hr _ hok hnd (findHit_mem hfind)

theorem foldl_processBullet_ok (env : Env) (m : GameMap)
    (hr : ∀ n, 0 ≤ env.rand n ∧ env.rand n < 1) :
    ∀ (bs : List (String × Bullet)) (acc : BulletAcc),
      (∀ e ∈ acc.players, PlayerOK e.2) → (keysA acc.players).Nodup →
      (∀ e ∈ (bs.foldl (processBullet env m) acc).players, PlayerOK e.2) ∧
      (keysA (bs.foldl (processBullet env m) acc).players).Nodup := by
  intro bs
  induction bs with
  | nil => intro acc hok hnd; exact ⟨hok, hnd⟩
  | cons b rest ih =>
    intro acc hok hnd
    obtain ⟨hok', hnd'⟩ := processBullet_ok env m hr b hok hnd
    exact ih _ hok' hnd'

/-- One simulation tick preserves the room invariant. -/
theorem tick_RoomOK (env : Env) (now : ℤ) {s : RoomState}
    (hr : ∀ n, 0 ≤ env.rand n ∧ env.rand n < 1) (h : RoomOK s) :
    RoomOK (tick env now s).1 := by
  obtain ⟨hok, hnd⟩ := h
  by_cases hrun : s.matchRunning = true
  · unfold tick
    rw [if_pos hrun]
    have hip := inputPhase_spec env now { s with seq := s.seq + 1 }
    have hok₂ : ∀ e ∈ (inputPhase env now
        { s with seq := s.seq + 1 }).players, PlayerOK e.2 := by
      rw [hip.1]
      refine map_players_ok (fun e _ hOK => ?_) hok
      obtain ⟨hhp, hx, hy⟩ := foldl_stepInput_frame env e.2.inputs e.2
      exact PlayerOK_of_eq hhp hx hy hOK
    have hnd₂ : (keysA (inputPhase env now
        { s with seq := s.seq + 1 }).players).Nodup := by
      rw [hip.1, keysA_map]
      exact hnd
    have hok₃ : ∀ e ∈ (inputPhase env now
        { s with seq := s.seq + 1 }).players.map
          (fun (e : String × Player) =>
            (e.1, movePlayer (inputPhase env now
              { s with seq := s.seq + 1 }).map e.2)),
        PlayerOK e.2 := by
      refine map_players_ok (fun e _ hOK => ?_) hok₂
      obtain ⟨hx0, hxW, hy0, hyH⟩ := movePlayer_bounds
        (inputPhase env now { s with seq := s.seq + 1 }).map e.2
      have hhp := movePlayer_hp
        (inputPhase env now { s with seq := s.seq + 1 }).map e.2
      exact ⟨by rw [hhp]; exact hOK.1, by rw [hhp]; exact hOK.2.1,
        hx0, hxW, hy0, hyH⟩
    have hnd₃ : (keysA ((inputPhase env now
        { s with seq := s.seq + 1 }).players.map
          (fun (e : String × Player) =>
            (e.1, movePlayer (inputPhase env now
              { s with seq := s.seq + 1 }).map e.2)))).Nodup := by
      rw [keysA_map]
      exact hnd₂
    exact ⟨(foldl_processBullet_ok env _ hr _ _ hok₃ hnd₃).1,
      (foldl_processBullet_ok env _ hr _ _ hok₃ hnd₃).2⟩
  · rw [Bool.not_eq_true] at hrun
    unfold tick
    rw [if_neg (by simp [hrun])]
    exact ⟨hok, hnd⟩

/-- One tick of a room containing no players and no obstacles, and a
single bullet: the bullet moves and ages, and is deleted exactly when its
decremented lifetime reaches zero or below. -/
theorem tick_bullet_only (env : Env) (now : ℤ) {s : RoomState}
    {bid : String} {b : Bullet} (hrun : s.matchRunning = true)
    (hps : s.players = []) (hw : s.map.walls = [])
    (hpil : s.map.pillars = []) (hb : s.bullets = [(bid, b)]) :
    (tick env now s).1.matchRunning = true ∧
    (tick env now s).1.players = [] ∧
    (tick env now s).1.map = s.map ∧
    (tick env now s).1.bullets =
      (if b.life - GAME_DT ≤ 0 then []
       else [(bid, { b with
         x := b.x + b.vx * GAME_DT,
         y := b.y + b.vy * GAME_DT, life := b.life - GAME_DT })]) := by
  obtain ⟨nm, ps, bs, sq, mp, dur, tl, run, ton, ri⟩ := s
  obtain ⟨walls, pillars, mw, mh⟩ := mp
  simp only at hrun hps hw hpil hb
  subst hrun hps hb
  subst hw hpil
  by_cases hc : b.life - GAME_DT ≤ 0
  · refine ⟨?_, ?_, ?_, ?_⟩ <;>
      simp [tick, inputPhase, inputStep, processBullet, findHit,
        collidesWithObstacles, hc]
  · refine ⟨?_, ?_, ?_, ?_⟩ <;>
      simp [tick, inputPhase, inputStep, processBullet, findHit,
        collidesWithObstacles, hc]

/-- Ticks of a room with no players and no bullets leave both stores
empty. -/
theorem runTicks_no_entities (env : Env) :
    ∀ (ts : List ℤ) (s : RoomState), s.players = [] → s.bullets = [] →
      (runTicks env ts s).players = [] ∧ (runTicks env ts s).bullets = [] := by
  intro ts
  induction ts with
  | nil => intro s h1 h2; exact ⟨h1, h2⟩
  | cons t rest ih =>
    intro s h1 h2
    have hstep : (tick env t s).1.players = [] ∧
        (tick env t s).1.bullets = [] := by
      by_cases hrun : s.matchRunning = true
      · obtain ⟨nm, ps, bs, sq, mp, dur, tl, run, ton, ri⟩ := s
        simp only at hrun h1 h2
        subst hrun h1 h2
        constructor <;> simp [tick, inputPhase, inputStep]
      · rw [Bool.not_eq_true] at hrun
        unfold tick
        rw [if_neg (by simp [hrun])]
        exact ⟨h1, h2⟩
    exact ih _ hstep.1 hstep.2

/-- Over any sequence of ticks short enough for the bullet to survive, an
obstacle-free, player-free room keeps exactly the one bullet, whose
lifetime decreases by `GAME_DT` per tick. -/
theorem runTicks_bullet_only (env : Env) :
    ∀ (ts : List ℤ) (s : RoomState) (bid : String) (b : Bullet),
      s.matchRunning = true → s.players = [] → s.map.walls = [] →
      s.map.pillars = [] → s.bullets = [(bid, b)] →
      (ts.length : ℚ) * GAME_DT < b.life →
      ∃ b' : Bullet, (runTicks env ts s).bullets = [(bid, b')] ∧
        b'.life = b.life - ts.length * GAME_DT ∧
        (runTicks env ts s).matchRunning = true ∧
        (runTicks env ts s).players = [] ∧
        (runTicks env ts s).map.walls = [] ∧
        (runTicks env ts s).map.pillars = [] := by
  intro ts
  induction ts with
  | nil =>
    intro s bid b hrun hps hw hpil hb _
    exact ⟨b, hb, by simp, hrun, hps, hw, hpil⟩
  | cons t rest ih =>
    intro s bid b hrun hps hw hpil hb hlen
    have hdt : (0 : ℚ) < GAME_DT := by norm_num [GAME_DT, GAME_TICK_RATE]
    have hlen' : (rest.length : ℚ) * GAME_DT < b.life - GAME_DT := by
      have : ((rest.length : ℚ) + 1) * GAME_DT < b.life := by
        simpa [List.length_cons, add_mul] using hlen
      nlinarith [this]
    have hsurv : ¬(b.life - GAME_DT ≤ 0) := by
      have h0 : (0 : ℚ) ≤ (rest.length : ℚ) * GAME_DT :=
        mul_nonneg (by positivity) (le_of_lt hdt)
      push_neg
      linarith
    obtain ⟨h1, h2, h3, h4⟩ := tick_bullet_only env t hrun hps hw hpil hb
    rw [if_neg hsurv] at h4
    obtain ⟨b', hb', hlife, hr', hp', hw', hpil'⟩ := ih (tick env t s).1 bid
      { b with
        x := b.x + b.vx * GAME_DT, y := b.y + b.vy * GAME_DT,
        life := b.life - GAME_DT }
      h1 h2 (by rw [h3]; exact hw) (by rw [h3]; exact hpil) h4
      (by simpa using hlen')
    refine ⟨b', hb', ?_, hr', hp', hw', hpil'⟩
    rw [hlife]
    simp only [List.length_cons]
    push_cast
    ring

/-- **C6**: a bullet spawned with initial lifetime 2.5 s that strikes no
obstacle and no player is destroyed after exactly `ceil(2.5 / dt) = 113`
simulation ticks, `dt = 1/45 s`: its lifetime is decremented by `dt` each
tick, it is still stored (with positive lifetime) after any 112 ticks,
and it is deleted on the 113th. -/
theorem c6_bullet_lifetime (env : Env) (bid : String) (b : Bullet)
    (s : RoomState) (hrun : s.matchRunning = true) (hps : s.players = [])
    (hw : s.map.walls = []) (hpil : s.map.pillars = [])
    (hb : s.bullets = [(bid, b)]) (hlife : b.life = 5 / 2) :
    (∀ ts : List ℤ, ts.length ≤ 112 →
      ∃ b', (runTicks env ts s).bullets = [(bid, b')] ∧
        b'.life = 5 / 2 - ts.length * GAME_DT ∧ 0 < b'.life) ∧
    (∀ ts : List ℤ, 113 ≤ ts.length →
      (runTicks env ts s).bullets = []) := by
  constructor
  · intro ts hts
    have h112 : (ts.length : ℚ) ≤ 112 := by exact_mod_cast hts
    have hlt : (ts.length : ℚ) * GAME_DT < b.life := by
      rw [hlife]
      have hmul : (ts.length : ℚ) * GAME_DT ≤ 112 * GAME_DT :=
        mul_le_mul_of_nonneg_right h112
          (by norm_num [GAME_DT, GAME_TICK_RATE])
      have : (112 : ℚ) * GAME_DT < 5 / 2 := by
        norm_num [GAME_DT, GAME_TICK_RATE]
      linarith
    obtain ⟨b', h1, h2, _⟩ :=
      runTicks_bullet_only env ts s bid b hrun hps hw hpil hb hlt
    rw [hlife] at hlt
    refine ⟨b', h1, by rw [h2, hlife], ?_⟩
    rw [h2, hlife]
    linarith
  · intro ts hts
    obtain ⟨l₁, lr, rfl, hl₁⟩ : ∃ l₁ lr, ts = l₁ ++ lr ∧ l₁.length = 112 :=
      ⟨ts.take 112, ts.drop 112, (List.take_append_drop _ _).symm, by
        rw [List.length_take]
        omega⟩
    rw [List.length_append] at hts
    obtain ⟨l₂, l₃, rfl, hl₂⟩ : ∃ l₂ l₃, lr = l₂ ++ l₃ ∧ l₂.length = 1 :=
      ⟨lr.take 1, lr.drop 1, (List.take_append_drop _ _).symm, by
        rw [List.length_take]
        omega⟩
    obtain ⟨t, rfl⟩ := List.length_eq_one.mp hl₂
    have happ : ∀ (u v : List ℤ) (s₀ : RoomState),
        runTicks env (u ++ v) s₀ = runTicks env v (runTicks env u s₀) := by
      intro u v s₀
      simp [runTicks, List.foldl_append]
    rw [happ, happ]
    have hlt : (l₁.length : ℚ) * GAME_DT < b.life := by
      rw [hl₁, hlife]
      norm_num [GAME_DT, GAME_TICK_RATE]
    obtain ⟨b', h1, h2, h3, h4, h5, h6⟩ :=
      runTicks_bullet_only env l₁ s bid b hrun hps hw hpil hb hlt
    obtain ⟨_, k2, _, k4⟩ := tick_bullet_only env t h3 h4 h5 h6 h1
    have hdead : b'.life - GAME_DT ≤ 0 := by
      rw [h2, hl₁, hlife]
      norm_num [GAME_DT, GAME_TICK_RATE]
    rw [if_pos hdead] at k4
    exact (runTicks_no_entities env l₃ _ k2 k4).2

theorem c6_bullet_lifetime_witness :
    (∃ b', (runTicks envZero (List.replicate 112 0) bulletRoom).bullets
        = [("b", b')] ∧
      b'.life = 5 / 2 - (List.replicate 112 (0 : ℤ)).length * GAME_DT ∧
      0 < b'.life) ∧
    (runTicks envZero (List.replicate 113 0) bulletRoom).bullets = [] :=
  ⟨(c6_bullet_lifetime envZero "b" testBullet bulletRoom rfl rfl rfl rfl rfl
      rfl).1 (List.replicate 112 0) (by simp),
   (c6_bullet_lifetime envZero "b" testBullet bulletRoom rfl rfl rfl rfl rfl
      rfl).2 (List.replicate 113 0) (by simp)⟩

theorem testPlayer_ok (id : String) (k : ℕ) (rdy : Bool) :
    PlayerOK (testPlayer id k rdy) := by
  refine ⟨?_, ?_, ?_, ?_, ?_, ?_⟩ <;>
    norm_num [testPlayer, MAP_WIDTH, MAP_HEIGHT]

/-- **C3**: for every player and every sequence of simulation ticks
starting from a state satisfying the room invariant, after each tick the
player's health is within `[0, 100]` and the position satisfies
`0 ≤ x ≤ 1250` and `0 ≤ y ≤ 650` (given the `Math.random` contract for
respawn points). -/
theorem c3_health_position_bounds (env : Env) (times : List ℤ)
    (s : RoomState) (hr : ∀ n, 0 ≤ env.rand n ∧ env.rand n < 1)
    (h : RoomOK s) :
    ∀ e ∈ (runTicks env times s).players,
      0 ≤ e.2.hp ∧ e.2.hp ≤ 100 ∧ 0 ≤ e.2.x ∧ e.2.x ≤ MAP_WIDTH ∧
      0 ≤ e.2.y ∧ e.2.y ≤ MAP_HEIGHT := by
  have main : RoomOK (runTicks env times s) := by
    induction times generalizing s with
    | nil => exact h
    | cons t rest ih => exact ih _ (tick_RoomOK env t hr h)
  exact main.1

theorem c3_health_position_bounds_witness :
    ((runTicks envZero [0]
        (roomWith [("p1", testPlayer "p1" 0 false)] true)).players.all
      (fun e => decide (0 ≤ e.2.hp) && decide (e.2.hp ≤ 100) &&
        decide (0 ≤ e.2.x) && decide (e.2.x ≤ MAP_WIDTH) &&
        decide (0 ≤ e.2.y) && decide (e.2.y ≤ MAP_HEIGHT))) = true := by
  rw [List.all_eq_true]
  intro e he
  have h := c3_health_position_bounds envZero [0]
    (roomWith [("p1", testPlayer "p1" 0 false)] true)
    (fun _ => ⟨by norm_num [envZero], by norm_num [envZero]⟩)
    ⟨by
      intro e' he'
      simp only [roomWith, List.mem_singleton] at he'
      subst he'
      exact testPlayer_ok "p1" 0 false,
     by simp [roomWith, keysA]⟩ e he
  simp only [Bool.and_eq_true, decide_eq_true_eq]
  exact ⟨⟨⟨⟨⟨h.1, h.2.1⟩, h.2.2.1⟩, h.2.2.2.1⟩, h.2.2.2.2.1⟩, h.2.2.2.2.2⟩

end Celestia
